import Mathlib

/-!
Verification of the delta-form PID controller, coefficient derivation and
quantized-encoder model of the PID-Controller-With-FPGA repository.

Embedding conventions: IEEE-754 `float`/`double` values are modelled as exact
rationals (ℚ).  Where a claim is about the *placement of roundings* (the
serial multiply-then-add accumulation, the fused multiply-add in the encoder),
the corresponding function is parameterized by the rounded primitives
(`mul`/`add`, mirroring the source's `mul_rn`/`add_rn` helpers) or by a
rounding function `round2 : ℚ → ℚ`, so that each individually rounded source
operation is one application of the parameter.  IEEE negation is exact, so
`-x` models the source's unary minus, and `a - b` is modelled as `add a (-b)`
(IEEE subtraction is addition of the negated operand).  Machine integers
(`long`, `int`) are modelled as ℤ.
-/

namespace PidFpga

/-- FP32 value of hex 3C864B8B (source constant `C0`, the a0 coefficient). -/
def C0 : ℚ := 8801163 / 536870912

/-- FP32 value of hex 3DE21965 (source constant `C1`). -/
def C1 : ℚ := 14817637 / 134217728

/-- FP32 value of hex BDE4FC8E (source constant `C2`). -/
def C2 : ℚ := -7503431 / 67108864

/-- FP32 value of hex 3AEC5C01 (source constant `C3`). -/
def C3 : ℚ := 15490049 / 8589934592

/-- FP32 value of hex BEA75178 (source constant `C4`). -/
def C4 : ℚ := -1370671 / 4194304

/-- FP32 value of hex 3F0B6AB1 (source constant `C5`). -/
def C5 : ℚ := 9136817 / 16777216

/-- FP32 value of hex BE5F6EF6 (source constant `C6`). -/
def C6 : ℚ := -7321467 / 33554432

/-- FP32 value of hex 3B9D4952 (source constant `C7A`, anti-windup tap 1). -/
def C7A : ℚ := 5153961 / 1073741824

/-- FP32 value of hex B8A505D6 (source constant `C7B`, anti-windup tap 2). -/
def C7B : ℚ := -5407467 / 68719476736

/-- FP32 value of hex 41400000 (source constant `YSAT`, 12.0). -/
def YSAT : ℚ := 12

/-- FP32 value of hex 3F70CAF0 (source constant `INT2RADS`, rad/s per count). -/
def INT2RADS : ℚ := 986287 / 1048576

/-- `std::clamp(v, lo, hi)`: `v < lo ? lo : (hi < v ? hi : v)`. -/
def clampf (v lo hi : ℚ) : ℚ := if v < lo then lo else if hi < v then hi else v

/-- State of `DeltaPid2TapAw` (identical field sets in `PID_MY_DIGIT.cpp`,
`pid_compare.cpp` and `pid_last_compare.cpp`): the saturation limit `YSAT_`
fixed at construction and the two-deep histories mutated by `step`. -/
structure PidState where
  YSAT_ : ℚ
  dy1 : ℚ
  w1 : ℚ
  w2 : ℚ
  x1 : ℚ
  x2 : ℚ
  y_unsat_1 : ℚ
  y_unsat_2 : ℚ
  y_sat_1 : ℚ
  y_sat_2 : ℚ
deriving DecidableEq

/-- `DeltaPid2TapAw::reset`: zero every history field; `YSAT_` is untouched. -/
def PidState.reset (st : PidState) : PidState :=
  { st with dy1 := 0, w1 := 0, w2 := 0, x1 := 0, x2 := 0,
            y_unsat_1 := 0, y_unsat_2 := 0, y_sat_1 := 0, y_sat_2 := 0 }

/-- `DeltaPid2TapAw::step` of `PID_MY_DIGIT.cpp` / `pid_last_compare.cpp`:
the step-rounded variant that accumulates `acc` through the `mul_rn`/`add_rn`
helpers, starting from `acc = 0.0f`.  `mul`/`add` are the rounded FP32
primitives; each source-level rounded operation is one application.
Returns the emitted `y_sat` together with the updated state. -/
def stepRn (mul add : ℚ → ℚ → ℚ) (st : PidState) (w x : ℚ) : ℚ × PidState :=
  let e_sat_1 := add st.y_sat_1 (-st.y_unsat_1)
  let e_sat_2 := add st.y_sat_2 (-st.y_unsat_2)
  let acc0 : ℚ := 0
  let acc1 := add acc0 (mul C0 st.dy1)
  let acc2 := add acc1 (mul C1 w)
  let acc3 := add acc2 (mul C2 st.w1)
  let acc4 := add acc3 (mul C3 st.w2)
  let acc5 := add acc4 (mul C4 x)
  let acc6 := add acc5 (mul C5 st.x1)
  let acc7 := add acc6 (mul C6 st.x2)
  let acc8 := add acc7 (mul C7A e_sat_1)
  let acc9 := add acc8 (mul C7B e_sat_2)
  let dy := acc9
  let y_unsat := add st.y_unsat_1 dy
  let y_sat := clampf y_unsat (-st.YSAT_) st.YSAT_
  (y_sat,
   { YSAT_ := st.YSAT_
     dy1 := dy
     w1 := w, w2 := st.w1
     x1 := x, x2 := st.x1
     y_unsat_1 := y_unsat, y_unsat_2 := st.y_unsat_1
     y_sat_1 := y_sat, y_sat_2 := st.y_sat_1 })

/-- `DeltaPid2TapAw::step` of `pid_compare.cpp`: the variant that computes
`dy` as one left-associated arithmetic expression (no leading zero
accumulator).  `mul`/`add` are the rounded FP32 primitives; the source's
subtractions `y_sat_i - y_unsat_i` are `add` of the negated operand. -/
def stepOneExpr (mul add : ℚ → ℚ → ℚ) (st : PidState) (w x : ℚ) : ℚ × PidState :=
  let e_sat_1 := add st.y_sat_1 (-st.y_unsat_1)
  let e_sat_2 := add st.y_sat_2 (-st.y_unsat_2)
  let dy :=
    add (add (add (add (add (add (add (add
      (mul C0 st.dy1) (mul C1 w)) (mul C2 st.w1)) (mul C3 st.w2))
      (mul C4 x)) (mul C5 st.x1)) (mul C6 st.x2))
      (mul C7A e_sat_1)) (mul C7B e_sat_2)
  let y_unsat := add st.y_unsat_1 dy
  let y_sat := clampf y_unsat (-st.YSAT_) st.YSAT_
  (y_sat,
   { YSAT_ := st.YSAT_
     dy1 := dy
     w1 := w, w2 := st.w1
     x1 := x, x2 := st.x1
     y_unsat_1 := y_unsat, y_unsat_2 := st.y_unsat_1
     y_sat_1 := y_sat, y_sat_2 := st.y_sat_1 })

/-- The `step` contract exactly as the specification words it: compute
e_sat_1 = y_sat_1 − y_unsat_1 and e_sat_2 = y_sat_2 − y_unsat_2; compute dy
as the sum of the nine weighted terms a0·dy1, c1·w, c2·w1, c3·w2, c4·x,
c5·x1, c6·x2, c7a·e_sat_1, c7b·e_sat_2 accumulated in that exact order;
y_unsat = y_unsat_1 + dy; y_sat = clamp(y_unsat, −YSAT, +YSAT); shift the
two-deep histories dy1←dy, w2←w1, w1←w, x2←x1, x1←x, y_unsat_2←y_unsat_1,
y_unsat_1←y_unsat, y_sat_2←y_sat_1, y_sat_1←y_sat; return y_sat. -/
def stepSpec (mul add : ℚ → ℚ → ℚ) (st : PidState) (w x : ℚ) : ℚ × PidState :=
  let e_sat_1 := add st.y_sat_1 (-st.y_unsat_1)
  let e_sat_2 := add st.y_sat_2 (-st.y_unsat_2)
  let t1 := mul C0 st.dy1
  let t2 := add t1 (mul C1 w)
  let t3 := add t2 (mul C2 st.w1)
  let t4 := add t3 (mul C3 st.w2)
  let t5 := add t4 (mul C4 x)
  let t6 := add t5 (mul C5 st.x1)
  let t7 := add t6 (mul C6 st.x2)
  let t8 := add t7 (mul C7A e_sat_1)
  let dy := add t8 (mul C7B e_sat_2)
  let y_unsat := add st.y_unsat_1 dy
  let y_sat := clampf y_unsat (-st.YSAT_) st.YSAT_
  (y_sat,
   { YSAT_ := st.YSAT_
     dy1 := dy
     w1 := w, w2 := st.w1
     x1 := x, x2 := st.x1
     y_unsat_1 := y_unsat, y_unsat_2 := st.y_unsat_1
     y_sat_1 := y_sat, y_sat_2 := st.y_sat_1 })

/-- `step` with exact rational multiply and add: the model of the controller
arithmetic when no operation rounds (used for claims that are insensitive to
rounding, such as the behaviour on the all-zero state). -/
def step (st : PidState) (w x : ℚ) : ℚ × PidState :=
  stepRn (fun a b => a * b) (fun a b => a + b) st w x

/-! ### Encoder model (`EncoderFloor` of all three C++ files) -/

/-- State of `EncoderFloor`: sample period `Ts`, `rad_per_cnt = INT2RADS·Ts`,
`int2radfac = INT2RADS`, accumulated angle `theta_rad`, and the previous
integer count `C_prev` (a C `long`, modelled as ℤ). -/
structure EncoderFloor where
  Ts : ℚ
  rad_per_cnt : ℚ
  int2radfac : ℚ
  theta_rad : ℚ
  C_prev : ℤ
deriving DecidableEq

/-- The `EncoderFloor(float Ts_)` constructor: `theta_rad = 0`, `C_prev = 0`,
`int2radfac = INT2RADS`, `rad_per_cnt = INT2RADS * Ts` (exactly the product in
the model; the source rounds it once). -/
def EncoderFloor.init (Ts : ℚ) : EncoderFloor :=
  { Ts := Ts, rad_per_cnt := INT2RADS * Ts, int2radfac := INT2RADS,
    theta_rad := 0, C_prev := 0 }

/-- `EncoderFloor::sample(x_true, spdcnt, x_meas)` in exact arithmetic:
`theta_rad = fma(x_true, Ts, theta_rad)`; `C_real = theta_rad / rad_per_cnt`;
`C_now = floor(C_real)`; `spdcnt = C_now - C_prev`; `C_prev = C_now`;
`x_meas = spdcnt * int2radfac`.  Returns `(spdcnt, x_meas, updated state)`. -/
def EncoderFloor.sample (e : EncoderFloor) (x_true : ℚ) : ℤ × ℚ × EncoderFloor :=
  let theta := x_true * e.Ts + e.theta_rad
  let C_real := theta / e.rad_per_cnt
  let C_now : ℤ := ⌊C_real⌋
  let spdcnt := C_now - e.C_prev
  (spdcnt, (spdcnt : ℚ) * e.int2radfac,
   { e with theta_rad := theta, C_prev := C_now })

/-- Run `sample` over a list of true velocities, collecting the emitted
`spdcnt` values (most recent last) and the final encoder state. -/
def EncoderFloor.run (e : EncoderFloor) : List ℚ → List ℤ × EncoderFloor
  | [] => ([], e)
  | x :: xs =>
      let s := e.sample x
      let r := s.2.2.run xs
      (s.1 :: r.1, r.2)

/-! ### Rounding-parameterized theta updates (for the fused multiply-add
claim).  `round2` is the FP32 rounding applied by one arithmetic operation. -/

/-- Theta update of `EncoderFloor::sample` in `PID_MY_DIGIT.cpp` and
`pid_last_compare.cpp`: `theta_rad = std::fmaf(x_true, Ts, theta_rad)` — the
exact product-plus-addend rounded once. -/
def thetaUpdateFmaf (round2 : ℚ → ℚ) (theta x_true Ts : ℚ) : ℚ :=
  round2 (x_true * Ts + theta)

/-- Theta update of `EncoderFloor::sample` in `pid_compare.cpp`:
`theta_rad += x_true * Ts` — the product is rounded first, then the sum is
rounded. -/
def thetaUpdatePlainAdd (round2 : ℚ → ℚ) (theta x_true Ts : ℚ) : ℚ :=
  round2 (theta + round2 (x_true * Ts))

/-- Modelled from the spec: "Integrate: theta_rad += x_true·Ts …
implementations must preserve a fused multiply-add semantic here", i.e. a
single rounding of the exact value theta_rad + x_true·Ts with no intermediate
rounding of the product. -/
def thetaUpdateFusedSpec (round2 : ℚ → ℚ) (theta x_true Ts : ℚ) : ℚ :=
  round2 (theta + x_true * Ts)

/-- Round toward negative infinity to an integer: a concrete instance of a
rounding function, used to separate the two theta-update placements. -/
def floorRound (q : ℚ) : ℚ := (⌊q⌋ : ℤ)

/-! ### Coefficient derivation (`compute_time_constants` / `compute_coeffs`
of `app.c`), modelled in exact rational arithmetic.  Note that rational
division by zero yields 0 in Lean, whereas IEEE yields a non-finite value;
the theorems about the `den > 0` guard therefore use inputs with `den < 0`,
where no division by zero occurs and the two semantics agree. -/

/-- `Ts_sec = 1.0/(double)GATE_HZ` with `GATE_HZ = 200`: the exact value of
the sample period, 1/200 s. -/
def Ts_sec : ℚ := 1 / 200

/-- `compute_time_constants(Kp, Ki, Kd, N)` of `app.c`, returned as the
triple (Ti, Td, a): `Ti = (Ki > 0 && Kp > 0) ? Kp/Ki : 1e30`;
`Td = (Kp > 0) ? Kd/Kp : 0`; `a = (N > 0) ? 1/N : 0`. -/
def compute_time_constants (Kp Ki Kd N : ℚ) : ℚ × ℚ × ℚ :=
  (if 0 < Ki ∧ 0 < Kp then Kp / Ki else 10 ^ 30,
   if 0 < Kp then Kd / Kp else 0,
   if 0 < N then 1 / N else 0)

/-- The nine derived discrete coefficients of `compute_coeffs`. -/
structure Coeffs where
  a0 : ℚ
  c1 : ℚ
  c2 : ℚ
  c3 : ℚ
  c4 : ℚ
  c5 : ℚ
  c6 : ℚ
  c7a : ℚ
  c7b : ℚ
deriving DecidableEq

/-- `compute_coeffs(Kp, Ki, Kd, N, b, c, Kb, …)` of `app.c`:
`den = Ts + a*Td`; `Ts_over_Ti = (Ti < 1e20) ? Ts/Ti : 0`;
`a0 = (den > 0) ? (a*Td)/den : 0` and the body coefficients C1..C6, then the
two anti-windup taps `c7a = Ki*Kb*Ts` and `c7b = -c7a*a0`. -/
def compute_coeffs (Kp Ki Kd N b c Kb : ℚ) : Coeffs :=
  let Ts := Ts_sec
  let tc := compute_time_constants Kp Ki Kd N
  let Ti := tc.1
  let Td := tc.2.1
  let a := tc.2.2
  let den := Ts + a * Td
  let Ts_over_Ti := if Ti < 10 ^ 20 then Ts / Ti else 0
  let v0 := if 0 < den then (a * Td) / den else 0
  let v1 := Kp * (b + Ts_over_Ti + (Td * c) / den)
  let v2 := -Kp * (b * (Ts + 2 * a * Td) + (a * Td * Ts_over_Ti) + (2 * Td * c)) / den
  let v3 := (Kp * Td * (a * b + c)) / den
  let v4 := -Kp * (1 + Ts_over_Ti + (Td / den))
  let v5 := Kp * (Ts + 2 * a * Td + (a * Td * Ts_over_Ti) + (2 * Td)) / den
  let v6 := -Kp * (Td * (a + 1)) / den
  let v7a := Ki * Kb * Ts
  let v7b := -v7a * v0
  ⟨v0, v1, v2, v3, v4, v5, v6, v7a, v7b⟩

/-! ### Validation-harness comparison and exit-status logic -/

/-- FP32 value of the literal 1e-3f: `ABS_TOL` and `REL_TOL` of
`pid_compare.cpp` and `tol` of `pid_last_compare.cpp`. -/
def TOL_1E3 : ℚ := 8589935 / 8589934592

/-- FP32 value of the literal 1e-12f: the floor put under the
relative-error denominator in `pid_compare.cpp`. -/
def EPS_1E12 : ℚ := 2305843 / 2305843009213693952

/-- Per-sample acceptance test of the `pid_compare.cpp` main loop:
`abs_err = |y_g - y_d|`, `denom = max(1e-12f, |y_d|)`,
`rel_err = abs_err / denom`, `ok = (abs_err <= ABS_TOL) || (rel_err <= REL_TOL)`. -/
def okSample (y_g y_d : ℚ) : Bool :=
  let abs_err := abs (y_g - y_d)
  let denom := max EPS_1E12 (abs y_d)
  let rel_err := abs_err / denom
  decide (abs_err ≤ TOL_1E3) || decide (rel_err ≤ TOL_1E3)

/-- The `mismatch_cnt` accumulated by `pid_compare.cpp` over the sequence of
per-sample output pairs (y_general, y_delta). -/
def mismatch_cnt (pairs : List (ℚ × ℚ)) : ℕ :=
  (pairs.filter (fun p => !okSample p.1 p.2)).length

/-- Exit status of `pid_compare.cpp` `main`:
`return (mismatch_cnt == 0) ? 0 : 1;`. -/
def exitCompare (pairs : List (ℚ × ℚ)) : ℤ :=
  if mismatch_cnt pairs = 0 then 0 else 1

/-- Per-index failure test of the golden-trace comparison loop of
`pid_last_compare.cpp`: index i fails when `|y_sim[i] - y_ref[i]| > tol`. -/
def failsAt (y_sim y_ref : ℚ) : Bool := decide (TOL_1E3 < abs (y_sim - y_ref))

/-- The `fail` counter of `pid_last_compare.cpp`: failing indices among the
first `min(sim length, ref length)` samples. -/
def failCount (sim ref : List ℚ) : ℕ :=
  ((sim.zip ref).filter (fun p => failsAt p.1 p.2)).length

/-- Exit status of `pid_last_compare.cpp` `main`: `return 1;` when the loaded
reference trace is empty, otherwise the function falls through to
`return 0;` regardless of the pass/fail counts of the comparison loop. -/
def exitLastCompare (_sim ref : List ℚ) : ℤ :=
  if ref.isEmpty then 1 else 0

/-! ## Helper lemmas -/

/-- A concrete controller state (saturation limit 12, as constructed by every
harness, with nonzero histories) used to instantiate the general theorems. -/
def st0 : PidState :=
  { YSAT_ := 12, dy1 := 1, w1 := 2, w2 := 3, x1 := 4, x2 := 5,
    y_unsat_1 := 6, y_unsat_2 := 7, y_sat_1 := 8, y_sat_2 := 9 }

theorem clampf_le_hi (v lo hi : ℚ) (h : lo ≤ hi) : clampf v lo hi ≤ hi := by
  unfold clampf
  split_ifs <;> linarith

theorem lo_le_clampf (v lo hi : ℚ) (h : lo ≤ hi) : lo ≤ clampf v lo hi := by
  unfold clampf
  split_ifs <;> linarith

theorem clampf_eq_hi (v lo hi : ℚ) (h : lo ≤ hi) (hv : hi < v) :
    clampf v lo hi = hi := by
  unfold clampf
  split_ifs <;> linarith

theorem clampf_eq_lo (v lo hi : ℚ) (hv : v < lo) : clampf v lo hi = lo := by
  unfold clampf
  split_ifs
  linarith

/-- With a FP32 `add` primitive that is exact on a zero left operand, the
step-rounded accumulation starting from `acc = 0.0f` performs the same
sequence of rounded operations as the single left-associated expression. -/
theorem stepRn_eq_oneExpr_aux (mul add : ℚ → ℚ → ℚ) (h0 : ∀ a, add 0 a = a)
    (st : PidState) (w x : ℚ) :
    stepRn mul add st w x = stepOneExpr mul add st w x := by
  simp only [stepRn, stepOneExpr, h0]

/-! ## Claim theorems -/

/-- C1: `DeltaPid2TapAw::step` computes exactly what the specification
states: the two saturation errors e_sat_1 = y_sat_1 − y_unsat_1 and
e_sat_2 = y_sat_2 − y_unsat_2, then dy as the nine weighted terms a0·dy1,
c1·w, c2·w1, c3·w2, c4·x, c5·x1, c6·x2, c7a·e_sat_1, c7b·e_sat_2 accumulated
in that exact order, then y_unsat = y_unsat_1 + dy, y_sat clamped to
[−YSAT, +YSAT], the full two-deep history shift, and returns y_sat.  This
holds for the single-expression variant outright and for the step-rounded
variant whenever the rounded `add` is exact on a zero left operand (as IEEE
round-to-nearest addition is, up to the sign of zero). -/
theorem step_matches_spec_contract (mul add : ℚ → ℚ → ℚ)
    (h0 : ∀ a, add 0 a = a) (st : PidState) (w x : ℚ) :
    stepRn mul add st w x = stepSpec mul add st w x ∧
    stepOneExpr mul add st w x = stepSpec mul add st w x :=
  ⟨(stepRn_eq_oneExpr_aux mul add h0 st w x).trans rfl, rfl⟩

/-- C1 witness: both variants agree with the specification contract at a
concrete state and input under exact rational multiply/add. -/
theorem step_matches_spec_contract_witness :
    stepRn (fun a b => a * b) (fun a b => a + b) st0 1 2
        = stepSpec (fun a b => a * b) (fun a b => a + b) st0 1 2 ∧
    stepOneExpr (fun a b => a * b) (fun a b => a + b) st0 1 2
        = stepSpec (fun a b => a * b) (fun a b => a + b) st0 1 2 :=
  step_matches_spec_contract _ _ (fun a => zero_add a) st0 1 2

/-- C8: the step-rounded delta-form controller (`mul_rn`/`add_rn` variant of
`PID_MY_DIGIT.cpp` / `pid_last_compare.cpp`) and the single-expression
variant of `pid_compare.cpp` return the same output and reach the same
successor state from equal states and equal inputs, provided every
source-level multiply and add is one individually rounded operation
(`mul`/`add`, no fusing or reassociation) and the rounded add is exact on a
zero left operand. -/
theorem stepRn_refines_oneExpr (mul add : ℚ → ℚ → ℚ)
    (h0 : ∀ a, add 0 a = a) (st : PidState) (w x : ℚ) :
    stepRn mul add st w x = stepOneExpr mul add st w x :=
  stepRn_eq_oneExpr_aux mul add h0 st w x

/-- C8 witness: the two variants agree at a concrete state and input under
exact rational multiply/add. -/
theorem stepRn_refines_oneExpr_witness :
    stepRn (fun a b => a * b) (fun a b => a + b) st0 3 4
        = stepOneExpr (fun a b => a * b) (fun a b => a + b) st0 3 4 :=
  stepRn_refines_oneExpr _ _ (fun a => zero_add a) st0 3 4

/-- C10: `reset()` zeroes every history field (dy1, w1, w2, x1, x2,
y_unsat_1, y_unsat_2, y_sat_1, y_sat_2), and a `step(0, 0)` made immediately
after `reset()` returns exactly 0 (for a nonnegative saturation limit, as in
every constructed controller, where YSAT = 12). -/
theorem reset_zeroes_and_step_returns_zero (st : PidState) (hY : 0 ≤ st.YSAT_) :
    st.reset.dy1 = 0 ∧ st.reset.w1 = 0 ∧ st.reset.w2 = 0 ∧
    st.reset.x1 = 0 ∧ st.reset.x2 = 0 ∧
    st.reset.y_unsat_1 = 0 ∧ st.reset.y_unsat_2 = 0 ∧
    st.reset.y_sat_1 = 0 ∧ st.reset.y_sat_2 = 0 ∧
    (step st.reset 0 0).1 = 0 := by
  refine ⟨rfl, rfl, rfl, rfl, rfl, rfl, rfl, rfl, rfl, ?_⟩
  simp [step, stepRn, PidState.reset, clampf,
        not_lt.2 hY, not_lt.2 (neg_nonpos.2 hY)]

/-- C10 witness: at the concrete state st0 (saturation limit 12). -/
theorem reset_zeroes_and_step_returns_zero_witness :
    st0.reset.dy1 = 0 ∧ st0.reset.w1 = 0 ∧ st0.reset.w2 = 0 ∧
    st0.reset.x1 = 0 ∧ st0.reset.x2 = 0 ∧
    st0.reset.y_unsat_1 = 0 ∧ st0.reset.y_unsat_2 = 0 ∧
    st0.reset.y_sat_1 = 0 ∧ st0.reset.y_sat_2 = 0 ∧
    (step st0.reset 0 0).1 = 0 :=
  reset_zeroes_and_step_returns_zero st0 (by decide)

/-- C4: the value returned by `step` lies in [−YSAT, +YSAT]; it is exactly
+YSAT whenever the stored unsaturated accumulator exceeds +YSAT and exactly
−YSAT below −YSAT; and the bound on the stored y_sat_1/y_sat_2 histories is
a state invariant established by `reset` and preserved by `step`, for any
rounded `mul`/`add` primitives (the clamp does not depend on how dy was
rounded). -/
theorem step_output_saturation (mul add : ℚ → ℚ → ℚ) (st : PidState) (w x : ℚ)
    (hY : 0 ≤ st.YSAT_)
    (h1 : abs st.y_sat_1 ≤ st.YSAT_) (_h2 : abs st.y_sat_2 ≤ st.YSAT_) :
    abs (stepRn mul add st w x).1 ≤ st.YSAT_ ∧
    (st.YSAT_ < (stepRn mul add st w x).2.y_unsat_1 →
        (stepRn mul add st w x).1 = st.YSAT_) ∧
    ((stepRn mul add st w x).2.y_unsat_1 < -st.YSAT_ →
        (stepRn mul add st w x).1 = -st.YSAT_) ∧
    abs (stepRn mul add st w x).2.y_sat_1 ≤ (stepRn mul add st w x).2.YSAT_ ∧
    abs (stepRn mul add st w x).2.y_sat_2 ≤ (stepRn mul add st w x).2.YSAT_ ∧
    abs st.reset.y_sat_1 ≤ st.reset.YSAT_ ∧
    abs st.reset.y_sat_2 ≤ st.reset.YSAT_ := by
  have hle : -st.YSAT_ ≤ st.YSAT_ := neg_le_self hY
  have hfst : (stepRn mul add st w x).1
      = clampf ((stepRn mul add st w x).2.y_unsat_1) (-st.YSAT_) st.YSAT_ := rfl
  have habs : abs (stepRn mul add st w x).1 ≤ st.YSAT_ := by
    rw [hfst]
    exact abs_le.2 ⟨lo_le_clampf _ _ _ hle, clampf_le_hi _ _ _ hle⟩
  refine ⟨habs, ?_, ?_, ?_, ?_, ?_, ?_⟩
  · intro hgt
    rw [hfst]
    exact clampf_eq_hi _ _ _ hle hgt
  · intro hlt
    rw [hfst]
    exact clampf_eq_lo _ _ _ hlt
  · have e1 : (stepRn mul add st w x).2.y_sat_1 = (stepRn mul add st w x).1 := rfl
    have e2 : (stepRn mul add st w x).2.YSAT_ = st.YSAT_ := rfl
    rw [e1, e2]
    exact habs
  · have e1 : (stepRn mul add st w x).2.y_sat_2 = st.y_sat_1 := rfl
    have e2 : (stepRn mul add st w x).2.YSAT_ = st.YSAT_ := rfl
    rw [e1, e2]
    exact h1
  · have e1 : st.reset.y_sat_1 = 0 := rfl
    have e2 : st.reset.YSAT_ = st.YSAT_ := rfl
    rw [e1, e2, abs_zero]
    exact hY
  · have e1 : st.reset.y_sat_2 = 0 := rfl
    have e2 : st.reset.YSAT_ = st.YSAT_ := rfl
    rw [e1, e2, abs_zero]
    exact hY

/-- C4 witness: at the concrete state st0 (limit 12, histories within
bounds) under exact rational multiply/add. -/
theorem step_output_saturation_witness :
    abs (stepRn (fun a b => a * b) (fun a b => a + b) st0 1 2).1 ≤ st0.YSAT_ ∧
    (st0.YSAT_ < (stepRn (fun a b => a * b) (fun a b => a + b) st0 1 2).2.y_unsat_1 →
        (stepRn (fun a b => a * b) (fun a b => a + b) st0 1 2).1 = st0.YSAT_) ∧
    ((stepRn (fun a b => a * b) (fun a b => a + b) st0 1 2).2.y_unsat_1 < -st0.YSAT_ →
        (stepRn (fun a b => a * b) (fun a b => a + b) st0 1 2).1 = -st0.YSAT_) ∧
    abs (stepRn (fun a b => a * b) (fun a b => a + b) st0 1 2).2.y_sat_1
        ≤ (stepRn (fun a b => a * b) (fun a b => a + b) st0 1 2).2.YSAT_ ∧
    abs (stepRn (fun a b => a * b) (fun a b => a + b) st0 1 2).2.y_sat_2
        ≤ (stepRn (fun a b => a * b) (fun a b => a + b) st0 1 2).2.YSAT_ ∧
    abs st0.reset.y_sat_1 ≤ st0.reset.YSAT_ ∧
    abs st0.reset.y_sat_2 ≤ st0.reset.YSAT_ :=
  step_output_saturation _ _ st0 1 2 (by decide) (by decide) (by decide)

/-- `sample` does not change `rad_per_cnt`, so neither does `run`. -/
theorem EncoderFloor.run_rad_per_cnt (e : EncoderFloor) (xs : List ℚ) :
    (e.run xs).2.rad_per_cnt = e.rad_per_cnt := by
  induction xs generalizing e with
  | nil => rfl
  | cons x xs ih => exact ih (e.sample x).2.2

/-- Telescoping lemma: if the stored count is the floor of the current angle
over `rad_per_cnt`, the emitted deltas over any input list sum to the
difference of the final and initial floors. -/
theorem EncoderFloor.run_sum (xs : List ℚ) (e : EncoderFloor)
    (h : e.C_prev = ⌊e.theta_rad / e.rad_per_cnt⌋) :
    ((e.run xs).1).sum
      = ⌊(e.run xs).2.theta_rad / e.rad_per_cnt⌋
        - ⌊e.theta_rad / e.rad_per_cnt⌋ := by
  induction xs generalizing e with
  | nil =>
      simp [EncoderFloor.run]
  | cons x xs ih =>
      have hinv : ((e.sample x).2.2).C_prev
          = ⌊((e.sample x).2.2).theta_rad / ((e.sample x).2.2).rad_per_cnt⌋ := rfl
      have hrpc : ((e.sample x).2.2).rad_per_cnt = e.rad_per_cnt := rfl
      have hrun : e.run (x :: xs)
          = ((e.sample x).1 :: (((e.sample x).2.2).run xs).1,
             (((e.sample x).2.2).run xs).2) := rfl
      have hcnt : (e.sample x).1
          = ⌊((e.sample x).2.2).theta_rad / e.rad_per_cnt⌋ - e.C_prev := rfl
      rw [hrun]
      have ih' := ih (e.sample x).2.2 hinv
      rw [hrpc] at ih'
      simp only [List.sum_cons, ih', hcnt, h]
      omega

/-- C5: (a) after every `sample()` call the stored `C_prev` equals
floor(theta_rad / rad_per_cnt); (b) on a freshly constructed encoder, the
sum of the emitted spdcnt values over any sequence of samples equals
floor(final theta_rad / rad_per_cnt) − floor(initial theta_rad /
rad_per_cnt) — no count is lost across samples.  `0 < Ts` is the source's
precondition making `rad_per_cnt` a positive divisor. -/
theorem encoder_count_conservation :
    (∀ (e : EncoderFloor) (x : ℚ),
        ((e.sample x).2.2).C_prev
          = ⌊((e.sample x).2.2).theta_rad / ((e.sample x).2.2).rad_per_cnt⌋) ∧
    (∀ (Ts : ℚ), 0 < Ts → ∀ (xs : List ℚ),
        ((((EncoderFloor.init Ts).run xs).1).sum)
          = ⌊(((EncoderFloor.init Ts).run xs).2).theta_rad
                / (EncoderFloor.init Ts).rad_per_cnt⌋
            - ⌊(EncoderFloor.init Ts).theta_rad
                / (EncoderFloor.init Ts).rad_per_cnt⌋) := by
  constructor
  · intro e x
    rfl
  · intro Ts _ xs
    exact EncoderFloor.run_sum xs (EncoderFloor.init Ts) (by simp [EncoderFloor.init])

/-- C5 witness: a concrete three-sample run at Ts = 1; the emitted counts
sum to the final floor (the initial floor is 0). -/
theorem encoder_count_conservation_witness :
    (0 : ℚ) < 1 ∧
    ((((EncoderFloor.init 1).run [1, 2, 3]).1).sum
      = ⌊(((EncoderFloor.init 1).run [1, 2, 3]).2).theta_rad
            / (EncoderFloor.init 1).rad_per_cnt⌋
        - ⌊(EncoderFloor.init 1).theta_rad
            / (EncoderFloor.init 1).rad_per_cnt⌋) :=
  ⟨by norm_num, encoder_count_conservation.2 1 (by norm_num) [1, 2, 3]⟩

/-- Td as computed by `compute_time_constants` (the middle component). -/
def TdOf (Kp Ki Kd N : ℚ) : ℚ := (compute_time_constants Kp Ki Kd N).2.1

/-- a as computed by `compute_time_constants` (the last component). -/
def aOf (Kp Ki Kd N : ℚ) : ℚ := (compute_time_constants Kp Ki Kd N).2.2

/-- den = Ts + a·Td as computed inside `compute_coeffs`. -/
def denOf (Kp Ki Kd N : ℚ) : ℚ := Ts_sec + aOf Kp Ki Kd N * TdOf Kp Ki Kd N

/-- C3 counterexample: in golden-trace mode, a run whose single compared
sample is far out of tolerance (sim = [0], ref = [1], error 1 > 1e-3) still
exits with status 0: `pid_last_compare.cpp` ends in `return 0;` whenever the
reference trace is non-empty. -/
theorem exit_status_counterexample :
    failCount [0] [1] = 1 ∧ exitLastCompare [0] [1] = 0 := by
  constructor
  · have h : failsAt 0 1 = true := by
      unfold failsAt
      rw [decide_eq_true_eq]
      rw [show ((0:ℚ) - 1) = -1 by norm_num, abs_neg, abs_one]
      norm_num [TOL_1E3]
    simp [failCount, h]
  · rfl

/-- C3 amended: in controller-vs-controller mode the exit status is zero iff
every compared sample passes the tolerance test; in golden-trace mode the
exit status is zero iff the reference trace is non-empty, independent of the
per-sample comparison outcomes. -/
theorem exit_status_by_mode :
    (∀ pairs : List (ℚ × ℚ),
        exitCompare pairs = 0 ↔ ∀ p ∈ pairs, okSample p.1 p.2 = true) ∧
    (∀ sim ref : List ℚ, exitLastCompare sim ref = 0 ↔ ref ≠ []) := by
  constructor
  · intro pairs
    unfold exitCompare mismatch_cnt
    split_ifs with hz
    · simp only [List.length_eq_zero, List.filter_eq_nil_iff] at hz
      constructor
      · intro _ p hp
        have := hz p hp
        simpa using this
      · intro _
        rfl
    · constructor
      · intro h
        exact absurd h one_ne_zero
      · intro hall
        exfalso
        apply hz
        simp only [List.length_eq_zero, List.filter_eq_nil_iff]
        intro p hp
        simp [hall p hp]
  · intro sim ref
    cases ref <;> simp [exitLastCompare]

/-- C9 counterexample: the `pid_compare.cpp` encoder integrates theta with a
separate multiply and add (`theta_rad += x_true * Ts`); under a rounding
function that witnesses the intermediate rounding of the product (round
toward −∞ to an integer), it differs from the required single fused
multiply-add at theta = 1/2, x_true = 1, Ts = 1/2. -/
theorem fma_every_variant_counterexample :
    thetaUpdatePlainAdd floorRound (1/2) 1 (1/2)
      ≠ thetaUpdateFusedSpec floorRound (1/2) 1 (1/2) := by
  unfold thetaUpdatePlainAdd thetaUpdateFusedSpec floorRound
  norm_num

/-- C9 amended: the `PID_MY_DIGIT.cpp` and `pid_last_compare.cpp` encoder
variants update theta_rad with `std::fmaf(x_true, Ts, theta_rad)`, a single
rounding of the exact x_true·Ts + theta_rad with no intermediate rounding of
the product, for every rounding function and all inputs; the
`pid_compare.cpp` variant does not (see the counterexample). -/
theorem fmaf_variants_are_fused (round2 : ℚ → ℚ) (theta x_true Ts : ℚ) :
    thetaUpdateFmaf round2 theta x_true Ts
      = thetaUpdateFusedSpec round2 theta x_true Ts := by
  unfold thetaUpdateFmaf thetaUpdateFusedSpec
  exact congrArg round2 (by ring)

/-- C2 counterexample: at Kp = 1, Ki = 0, Kd = −1, N = 1, b = 1, c = 1,
Kb = 0 the denominator den = Ts + a·Td = −199/200 ≤ 0; a0 = 0 as claimed,
but the 1/den-dependent term of c4 does not fall back to 0: the code
computes c4 = −399/199, not the −Kp·(1 + Ts/Ti) = −1 that a zeroed fallback
would give. -/
theorem den_guard_counterexample :
    denOf 1 0 (-1) 1 ≤ 0 ∧
    (compute_coeffs 1 0 (-1) 1 1 1 0).a0 = 0 ∧
    (compute_coeffs 1 0 (-1) 1 1 1 0).c4 = -399/199 ∧
    ¬ (compute_coeffs 1 0 (-1) 1 1 1 0).c4 = -1 := by
  refine ⟨by norm_num [denOf, aOf, TdOf, compute_time_constants, Ts_sec], ?_, ?_, ?_⟩ <;>
    norm_num [compute_coeffs, compute_time_constants, Ts_sec]

/-- C2 amended: when den = Ts + a·Td ≤ 0 the derivation sets a0 = 0 — a0 is
the only coefficient the source guards with `den > 0`; the 1/den terms of
c1..c6 are still divided by den. -/
theorem den_guard_only_a0 (Kp Ki Kd N b c Kb : ℚ)
    (h : denOf Kp Ki Kd N ≤ 0) :
    (compute_coeffs Kp Ki Kd N b c Kb).a0 = 0 := by
  have h' : ¬ 0 < Ts_sec + (compute_time_constants Kp Ki Kd N).2.2
      * (compute_time_constants Kp Ki Kd N).2.1 := by
    rw [not_lt]
    exact h
  simp [compute_coeffs, h']

/-- C2 witness: the guarded a0 at a concrete den ≤ 0 input. -/
theorem den_guard_only_a0_witness :
    (compute_coeffs 1 0 (-1) 1 2 3 4).a0 = 0 :=
  den_guard_only_a0 1 0 (-1) 1 2 3 4
    (by norm_num [denOf, aOf, TdOf, compute_time_constants, Ts_sec])

/-- C6: for every tuning input the produced coefficients satisfy
c7b = −c7a·a0 — the second anti-windup tap is computed from the first tap
and the filter coefficient, never chosen independently. -/
theorem c7b_tap_coupling (Kp Ki Kd N b c Kb : ℚ) :
    (compute_coeffs Kp Ki Kd N b c Kb).c7b
      = -(compute_coeffs Kp Ki Kd N b c Kb).c7a
          * (compute_coeffs Kp Ki Kd N b c Kb).a0 := rfl

/-- C7: with Ki = 0 the Ts/Ti factor is 0, every term containing it
vanishes (each affected coefficient equals its formula with that term
dropped, and c7a = Ki·Kb·Ts = 0, hence c7b = 0), and under the data model's
Kd ≥ 0 the denominator den is strictly positive, so every division is by a
positive number and no non-finite value arises; with Kp = 0, Td = 0 and
every Td-dependent term is 0 (a0 = 0, c7b = 0, and c1..c6 all vanish with
the Kp factor). -/
theorem degenerate_tuning_safety (Kp Ki Kd N b c Kb : ℚ) :
    (Ki = 0 →
       (compute_coeffs Kp Ki Kd N b c Kb).c7a = 0 ∧
       (compute_coeffs Kp Ki Kd N b c Kb).c7b = 0 ∧
       (compute_coeffs Kp Ki Kd N b c Kb).c1
         = Kp * (b + (TdOf Kp Ki Kd N * c) / denOf Kp Ki Kd N) ∧
       (compute_coeffs Kp Ki Kd N b c Kb).c2
         = -Kp * (b * (Ts_sec + 2 * aOf Kp Ki Kd N * TdOf Kp Ki Kd N)
             + 2 * TdOf Kp Ki Kd N * c) / denOf Kp Ki Kd N ∧
       (compute_coeffs Kp Ki Kd N b c Kb).c4
         = -Kp * (1 + TdOf Kp Ki Kd N / denOf Kp Ki Kd N) ∧
       (compute_coeffs Kp Ki Kd N b c Kb).c5
         = Kp * (Ts_sec + 2 * aOf Kp Ki Kd N * TdOf Kp Ki Kd N
             + 2 * TdOf Kp Ki Kd N) / denOf Kp Ki Kd N ∧
       (0 ≤ Kd → 0 < denOf Kp Ki Kd N)) ∧
    (Kp = 0 →
       TdOf Kp Ki Kd N = 0 ∧
       (compute_coeffs Kp Ki Kd N b c Kb).a0 = 0 ∧
       (compute_coeffs Kp Ki Kd N b c Kb).c1 = 0 ∧
       (compute_coeffs Kp Ki Kd N b c Kb).c2 = 0 ∧
       (compute_coeffs Kp Ki Kd N b c Kb).c3 = 0 ∧
       (compute_coeffs Kp Ki Kd N b c Kb).c4 = 0 ∧
       (compute_coeffs Kp Ki Kd N b c Kb).c5 = 0 ∧
       (compute_coeffs Kp Ki Kd N b c Kb).c6 = 0 ∧
       (compute_coeffs Kp Ki Kd N b c Kb).c7b = 0) := by
  constructor
  · intro hKi
    subst hKi
    have hden : 0 ≤ Kd → 0 < denOf Kp 0 Kd N := by
      intro hKd
      have ha : 0 ≤ aOf Kp 0 Kd N := by
        have e : aOf Kp 0 Kd N = if 0 < N then 1 / N else 0 := rfl
        rw [e]
        split_ifs with hN
        · positivity
        · exact le_refl (0:ℚ)
      have hTd : 0 ≤ TdOf Kp 0 Kd N := by
        have e : TdOf Kp 0 Kd N = if 0 < Kp then Kd / Kp else 0 := rfl
        rw [e]
        split_ifs with hKp
        · exact div_nonneg hKd (le_of_lt hKp)
        · exact le_refl (0:ℚ)
      have hprod : 0 ≤ aOf Kp 0 Kd N * TdOf Kp 0 Kd N := mul_nonneg ha hTd
      unfold denOf Ts_sec
      linarith
    refine ⟨?_, ?_, ?_, ?_, ?_, ?_, hden⟩ <;>
      · simp only [compute_coeffs, compute_time_constants, TdOf, aOf, denOf,
          lt_self_iff_false, false_and, if_false, and_false]
        norm_num
  · intro hKp
    subst hKp
    simp [compute_coeffs, compute_time_constants, TdOf]

/-- C7 witness: concrete consequences at Ki = 0 (with Kp = 2, Kd = 1,
N = 50, b = c = 1, Kb = 3) and at Kp = 0 (with Ki = 5 and the same rest). -/
theorem degenerate_tuning_safety_witness :
    ((compute_coeffs 2 0 1 50 1 1 3).c7a = 0 ∧
     (compute_coeffs 2 0 1 50 1 1 3).c7b = 0 ∧
     0 < denOf 2 0 1 50) ∧
    (TdOf 0 5 1 50 = 0 ∧ (compute_coeffs 0 5 1 50 1 1 3).c1 = 0) := by
  have h1 := (degenerate_tuning_safety 2 0 1 50 1 1 3).1 rfl
  have h2 := (degenerate_tuning_safety 0 5 1 50 1 1 3).2 rfl
  exact ⟨⟨h1.1, h1.2.1, h1.2.2.2.2.2.2 (by norm_num)⟩, h2.1, h2.2.2.1⟩

end PidFpga
